import Mathlib

/-!
Shallow embedding of the gantt repository's CSV engine and HTTP handlers.

The JavaScript source is embedded as executable Lean definitions:
* `splitCsvLine`, `parseCsvText`, the column-set union of `loadCombinedCsvs`
  (from router.js of the reports variant),
* `parseCsvHeader` (the header-only parser used by the `/api/columns`
  endpoint of the task-tracker variant),
* the folder matching step of `loadCombinedCsvs`,
* the path sandbox check of `handleApiColumns`,
* the array check of the PUT `/api/tasks` handler.

JavaScript builtins (`String.prototype.trim`, `Number`, number-to-string
conversion, `path.join` / `path.normalize`, objects as insertion-ordered
key/value maps, `Set` as insertion-ordered deduplication) are modelled
explicitly below.  Numbers are modelled as exact rationals: every string
appearing in the theorems denotes a value that is exactly representable, so
the rational model agrees with IEEE double semantics on them.
-/

namespace Gantt

/-! ## Model of JavaScript string trimming (`String.prototype.trim`) -/

/-- Characters removed by JavaScript `trim` (ASCII whitespace, NBSP, BOM). -/
def isJsSpace (c : Char) : Bool :=
  c == ' ' || c == '\t' || c == '\n' || c == '\r' ||
  c == '\x0b' || c == '\x0c' || c == '\u00A0' || c == '\uFEFF'

/-- Trim on character lists: drop leading and trailing whitespace. -/
def jsTrimList (l : List Char) : List Char :=
  ((l.dropWhile isJsSpace).reverse.dropWhile isJsSpace).reverse

/-- Model of JavaScript `s.trim()`. -/
def jsTrim (s : String) : String :=
  String.mk (jsTrimList s.data)

/-! ## CsvLineSplitter: `splitCsvLine` (router.js lines 78–97)

The JS loop walks the line with an index, toggling quote mode on `"`,
emitting a literal `"` for a doubled quote inside quote mode (consuming
both characters), splitting fields on `,` outside quote mode, and pushing
the final accumulated field at end of line. -/

def splitCsvLineAux : Bool → List Char → List Char → List (List Char)
  | true, cur, '"' :: '"' :: rest => splitCsvLineAux true (cur ++ ['"']) rest
  | inQ, cur, '"' :: rest => splitCsvLineAux (!inQ) cur rest
  | false, cur, ',' :: rest => cur :: splitCsvLineAux false [] rest
  | inQ, cur, c :: rest => splitCsvLineAux inQ (cur ++ [c]) rest
  | _, cur, [] => [cur]

/-- Definition of `splitCsvLine(line)` from router.js. -/
def splitCsvLine (line : String) : List String :=
  (splitCsvLineAux false [] line.data).map String.mk

/-! ## Model of JavaScript `Number(string)` on decimal literals

`Number` trims whitespace, maps the empty string to `0`, and parses a
signed decimal literal (integer part and/or fraction, optional exponent).
`Infinity` and non-numeric strings give non-finite results, modelled as
`none`.  Hex/octal/binary literals are also mapped to `none`: their finite
values never round-trip through `String`, so the classifier below treats
them as strings either way, exactly as the JS code does. -/

/-- Digits of a numeral, as a natural number together with the digit count. -/
def readDigits : List Char → Option (Nat × Nat)
  | [] => none
  | l =>
    if l.all (·.isDigit) then
      some (l.foldl (fun a c => a * 10 + (c.toNat - '0'.toNat)) 0, l.length)
    else none

/-- Parse an unsigned decimal significand `digits [. digits]`, returning the
numerator and the number of fraction digits. -/
def readSignificand (l : List Char) : Option (Nat × Nat) :=
  match l.splitOn '.' with
  | [intPart] =>
    (readDigits intPart).map (fun p => (p.1, 0))
  | [intPart, fracPart] =>
    match intPart, fracPart with
    | [], [] => none
    | [], f =>
      (readDigits f).map (fun p => (p.1, p.2))
    | i, [] =>
      (readDigits i).map (fun p => (p.1, 0))
    | i, f =>
      match readDigits i, readDigits f with
      | some pi, some pf => some (pi.1 * 10 ^ pf.2 + pf.1, pf.2)
      | _, _ => none
  | _ => none

/-- Parse an optionally signed decimal integer (exponent part). -/
def readSignedInt : List Char → Option Int
  | '+' :: l => (readDigits l).map (fun p => (p.1 : Int))
  | '-' :: l => (readDigits l).map (fun p => -(p.1 : Int))
  | l => (readDigits l).map (fun p => (p.1 : Int))

/-- Parse an unsigned decimal literal with optional exponent into a rational. -/
def readUnsignedNumber (l : List Char) : Option ℚ :=
  match l.splitOn 'e' with
  | [mant] =>
    (match mant.splitOn 'E' with
     | [m] => (readSignificand m).map (fun p => (p.1 : ℚ) / 10 ^ p.2)
     | [m, ex] =>
       match readSignificand m, readSignedInt ex with
       | some p, some e => some ((p.1 : ℚ) / 10 ^ p.2 * 10 ^ (e : ℤ))
       | _, _ => none
     | _ => none)
  | [mant, ex] =>
    match readSignificand mant, readSignedInt ex with
    | some p, some e => some ((p.1 : ℚ) / 10 ^ p.2 * 10 ^ (e : ℤ))
    | _, _ => none
  | _ => none

/-- Model of JavaScript `Number(s)` restricted to finite results:
`none` models `NaN` and `±Infinity`. -/
def jsNumber (s : String) : Option ℚ :=
  match jsTrimList s.data with
  | [] => some 0
  | '+' :: l => readUnsignedNumber l
  | '-' :: l => (readUnsignedNumber l).map Neg.neg
  | l => readUnsignedNumber l

/-! ## Model of JavaScript `String(number)` for finite doubles

A positive value is printed in plain decimal when `1e-6 ≤ v < 1e21`
(integer digits, a `.` and the fraction digits with no trailing zeros),
and in exponential notation `d[.ddd]e±E` otherwise; zero prints as `"0"`
and negative values get a leading `-`. -/

/-- Smallest scale `k` with `q * 10^k` integral (`none` if no such `k` below
the search bound; unreachable for values produced by `jsNumber`). -/
def findScale (q : ℚ) : Option Nat :=
  (List.range (q.den + 1)).find? (fun k => (q * (10 : ℚ) ^ k).den = 1)

/-- Strip trailing `'0'` characters from a digit list. -/
def stripTrailingZeros (ds : List Char) : List Char :=
  (ds.reverse.dropWhile (· == '0')).reverse

/-- Exponential notation `d[.ddd]e±E` for digits `ds` scaled by `10^-k`. -/
def expNotation (ds : List Char) (k : Nat) : String :=
  let sig := stripTrailingZeros ds
  let e : Int := (ds.length : Int) - 1 - (k : Int)
  let mant :=
    match sig with
    | [] => "0"
    | [d] => String.mk [d]
    | d :: rest => String.mk [d] ++ "." ++ String.mk rest
  mant ++ "e" ++ (if 0 ≤ e then "+" ++ toString e else toString e)

/-- Print a positive rational the way JavaScript prints the double it denotes. -/
def jsNumToStringPos (q : ℚ) : String :=
  match findScale q with
  | none => "NaN"
  | some k =>
    let n := (q * (10 : ℚ) ^ k).num.toNat
    let ds := (Nat.repr n).data
    if 10 ^ (21 + k) ≤ n then expNotation ds k
    else if 6 < k ∧ n < 10 ^ (k - 6) then expNotation ds k
    else if k = 0 then Nat.repr n
    else
      let padded := List.replicate (k + 1 - ds.length) '0' ++ ds
      String.mk (padded.take (padded.length - k)) ++ "." ++
        String.mk (padded.drop (padded.length - k))

/-- Model of JavaScript `String(n)` for a finite number `n`. -/
def jsNumToString (q : ℚ) : String :=
  if q = 0 then "0"
  else if q < 0 then "-" ++ jsNumToStringPos (-q)
  else jsNumToStringPos q

/-! ## CsvTableParser: `parseCsvText` (router.js lines 99–126) -/

/-- A CSV cell value: JavaScript keeps either the raw string or a number. -/
inductive CsvCell where
  | str (s : String)
  | num (q : ℚ)
  deriving DecidableEq, Repr

/-- Returns `true` iff the cell was classified numeric. -/
def CsvCell.isNum : CsvCell → Bool
  | .str _ => false
  | .num _ => true

/-- The numeric-classification step of `parseCsvText` (lines 116–120):
`const num = Number(raw); if (raw !== "" && Number.isFinite(num) &&
String(raw).trim() === String(num)) row[k] = num;`. -/
def classifyCell (raw : String) : CsvCell :=
  match jsNumber raw with
  | some n => if raw ≠ "" ∧ jsTrim raw = jsNumToString n then .num n else .str raw
  | none => .str raw

/-- JavaScript object assignment `row[k] = v` on an insertion-ordered
key/value list: an existing key keeps its position and gets the new value,
a new key is appended. -/
def objSet {α : Type} (row : List (String × α)) (k : String) (v : α) :
    List (String × α) :=
  if row.any (fun kv => kv.1 == k) then
    row.map (fun kv => if kv.1 == k then (k, v) else kv)
  else row ++ [(k, v)]

/-- The row-building loop of `parseCsvText` (line 114):
`for (c = 0; c < columns.length; c++) row[columns[c]] = parts[c] ?? "";`. -/
def buildRowRawAux (parts : List String) :
    List (String × String) → Nat → List String → List (String × String)
  | row, _, [] => row
  | row, i, c :: cs => buildRowRawAux parts (objSet row c (parts.getD i "")) (i + 1) cs

/-- Raw row object built from the column list and the split fields. -/
def buildRowRaw (columns parts : List String) : List (String × String) :=
  buildRowRawAux parts [] 0 columns

/-- One data row: build the raw object, then classify every value
(lines 112–122). -/
def parseRow (columns : List String) (line : String) : List (String × CsvCell) :=
  (buildRowRaw columns (splitCsvLine line)).map (fun kv => (kv.1, classifyCell kv.2))

/-- The chained global replaces `replace(/\r\n/g, "\n").replace(/\r/g, "\n")`
in one left-to-right pass: a CRLF pair and a lone CR each become one LF. -/
def normalizeNewlines : List Char → List Char
  | '\r' :: '\n' :: rest => '\n' :: normalizeNewlines rest
  | '\r' :: rest => '\n' :: normalizeNewlines rest
  | c :: rest => c :: normalizeNewlines rest
  | [] => []

/-- Line normalization of `parseCsvText` (lines 100–104): normalize CRLF and
CR to LF, split on LF, drop lines that are empty after trimming. -/
def normalizeLines (csvText : String) : List String :=
  (((normalizeNewlines csvText.data).splitOn '\n').map String.mk).filter
    (fun x => !(jsTrim x == ""))

/-- Result of `parseCsvText`: the header columns and the parsed rows. -/
structure CsvTable where
  columns : List String
  rows : List (List (String × CsvCell))
  deriving DecidableEq, Repr

/-- Definition of `parseCsvText(csvText)` from router.js (lines 99–126). -/
def parseCsvText (csvText : String) : CsvTable :=
  match normalizeLines csvText with
  | [] => ⟨[], []⟩
  | l0 :: rest =>
    let columns := (splitCsvLine l0).map jsTrim
    ⟨columns, rest.map (parseRow columns)⟩

/-! ## Column-set union of `loadCombinedCsvs` (router.js lines 144–155)

`colSet` is a JS `Set`: insertion-ordered, re-adding an element keeps its
first position; `allRows` concatenates each file's rows in order. -/

/-- Step `parsed.columns.forEach(c => colSet.add(c))` over one column list. -/
def addCols (acc : List String) (cols : List String) : List String :=
  cols.foldl (fun s c => if c ∈ s then s else s ++ [c]) acc

/-- Value of `Array.from(colSet)` after processing every parsed table in order. -/
def mergeHeaders (tables : List CsvTable) : List String :=
  tables.foldl (fun acc t => addCols acc t.columns) []

/-- Value of `allRows` after `allRows.push(...parsed.rows)` for every table in order. -/
def mergeRows (tables : List CsvTable) : List (List (String × CsvCell)) :=
  tables.foldl (fun acc t => acc ++ t.rows) []

/-! ## Header parser of the `/api/columns` endpoint
(`parseCsvHeader`, task-tracker router.js lines 19–28)

This parser toggles quote mode on every `"` (no doubled-quote escape),
trims each field as it is pushed, drops the final field when the
accumulator is empty, and finally maps a regex `^"(.*)"$` strip over the
fields. -/

/-- JavaScript line terminators, which `.` in a regex does not match. -/
def isLineTerm (c : Char) : Bool :=
  c == '\n' || c == '\r' || c == '\u2028' || c == '\u2029'

/-- The regex replace `s.replace(/^"(.*)"$/, "$1")` on a character list:
strip one surrounding quote pair when the whole string matches. -/
def stripQuotesList : List Char → List Char
  | '"' :: rest =>
    if rest ≠ [] ∧ rest.getLast? = some '"' ∧ rest.dropLast.all (fun c => !isLineTerm c)
    then rest.dropLast
    else '"' :: rest
  | l => l

/-- The character loop of `parseCsvHeader`: toggle quote mode on `"`, push
the trimmed field on an unquoted comma, and at end of line push the trimmed
accumulator only if it is non-empty. -/
def parseCsvHeaderAux : Bool → List Char → List Char → List (List Char)
  | q, cur, '"' :: rest => parseCsvHeaderAux (!q) cur rest
  | false, cur, ',' :: rest => jsTrimList cur :: parseCsvHeaderAux false [] rest
  | q, cur, c :: rest => parseCsvHeaderAux q (cur ++ [c]) rest
  | _, cur, [] => if cur.isEmpty then [] else [jsTrimList cur]

/-- Definition of `parseCsvHeader(line)` from the task-tracker router.js: split/trim, then
`out.map(s => s.replace(/^"(.*)"$/, "$1"))`. -/
def parseCsvHeader (line : String) : List String :=
  ((parseCsvHeaderAux false [] line.data).map stripQuotesList).map String.mk

/-! ## FolderMatcher: subdirectory selection of `loadCombinedCsvs`
(router.js lines 64–67 and 131–135) -/

/-- One entry of a directory listing (`fs.readdir` with file types). -/
structure DirEntry where
  name : String
  isDir : Bool
  deriving DecidableEq, Repr

/-- Definition of `listImmediateSubdirs`: keep directory entries, return their names. -/
def listImmediateSubdirs (entries : List DirEntry) : List String :=
  (entries.filter (fun e => e.isDir)).map (fun e => e.name)

/-- Errors surfaced by the aggregate endpoint. -/
inductive AggError where
  | noMatch
  deriving DecidableEq, Repr

/-- Model of JavaScript `s.startsWith(pre)`. -/
def jsStartsWith (s pre : String) : Bool :=
  pre.data.isPrefixOf s.data

/-- Folder selection of `loadCombinedCsvs` (lines 131–135): trim the
keyword, keep subdirectories whose name starts with it (all of them when
the trimmed keyword is empty), and fail when nothing matched. -/
def selectFolders (entries : List DirEntry) (startKeyword : String) :
    Except AggError (List String) :=
  let subdirs := listImmediateSubdirs entries
  let key := jsTrim startKeyword
  let matchedFolders :=
    if key = "" then subdirs else subdirs.filter (fun d => jsStartsWith d key)
  if matchedFolders = [] then .error .noMatch else .ok matchedFolders

/-! ## Path sandbox check of `handleApiColumns`
(task-tracker server.js lines 141–178)

`path.join` and `path.normalize` are modelled for absolute POSIX paths:
split on `/`, drop empty and `.` segments, resolve `..` against the
segment stack (a `..` at the root is dropped, as Node does for absolute
paths). -/

/-- Segment normalization with a stack, for absolute paths. -/
def normStack (acc : List String) : List String → List String
  | [] => acc.reverse
  | s :: rest =>
    if s = "" ∨ s = "." then normStack acc rest
    else if s = ".." then normStack acc.tail rest
    else normStack (s :: acc) rest

/-- Model of `path.normalize` on an absolute POSIX path. -/
def pathNormAbs (p : String) : String :=
  "/" ++ "/".intercalate (normStack [] ((p.data.splitOn '/').map String.mk))

/-- Model of `path.join(a, b)` for an absolute `a`: concatenate and normalize. -/
def pathJoin (a b : String) : String :=
  pathNormAbs (a ++ "/" ++ b)

/-- The path computation and sandbox check of `handleApiColumns`
(lines 151–157): `some p` means the check passed and the file at `p` is
read; `none` means the request is rejected with "Invalid flow name". -/
def handleApiColumnsPath (dataDir flow : String) : Option String :=
  let csvPath := pathJoin dataDir (flow ++ ".csv")
  let safePath := pathNormAbs csvPath
  if jsStartsWith safePath dataDir then some safePath else none

/-- Modelled from the spec: a path is inside the fixed data directory when
it equals the directory or lies strictly below it; "escapes the directory"
is the negation. -/
def insideDir (dataDir p : String) : Bool :=
  p == dataDir || jsStartsWith p (dataDir ++ "/")

/-! ## PUT `/api/tasks` (router.js lines 40–50)

The handler parses the body, rejects a non-array JSON value with a 400
before any write, and otherwise overwrites the stored document. -/

/-- A JSON value. -/
inductive Json where
  | null
  | boolean (b : Bool)
  | number (q : ℚ)
  | string (s : String)
  | array (xs : List Json)
  | object (kvs : List (String × Json))

/-- Model of `Array.isArray`. -/
def Json.isArray : Json → Bool
  | .array _ => true
  | _ => false

/-- Outcome of the PUT handler, paired with the storage state after it. -/
inductive TasksReply where
  | invalidJson
  | mustBeArray
  | ok
  deriving DecidableEq

/-- Definition of `replaceTasks`, the PUT branch of `handleTasks`.  The stored document is
`none` when no file exists yet; the payload is the result of `JSON.parse`
(`none` models a parse failure).  Returns the reply and the storage state
after the request. -/
def replaceTasks (stored : Option Json) (payload : Option Json) :
    TasksReply × Option Json :=
  match payload with
  | none => (.invalidJson, stored)
  | some j =>
    match j with
    | .array xs => (.ok, some (.array xs))
    | _ => (.mustBeArray, stored)

/-! ## Derived comparison definitions used by the theorems -/

/-- Index of the last occurrence of `k` in a column list. -/
def lastIdxOf (k : String) : List String → Option Nat
  | [] => none
  | c :: cs =>
    match lastIdxOf k cs with
    | some i => some (i + 1)
    | none => if c = k then some 0 else none

/-- Comparison shape for the header parser: trim every field of a split
line and drop the final field when it is the empty string. -/
def trimDropLastEmpty : List String → List String
  | [] => []
  | [f] => if f = "" then [] else [jsTrim f]
  | f :: fs => jsTrim f :: trimDropLastEmpty fs

/-- Version of `trimDropLastEmpty` on character lists. -/
def trimDropLastEmptyL : List (List Char) → List (List Char)
  | [] => []
  | [f] => if f = [] then [] else [jsTrimList f]
  | f :: fs => jsTrimList f :: trimDropLastEmptyL fs

theorem splitAux_nil (inQ : Bool) (cur : List Char) :
    splitCsvLineAux inQ cur [] = [cur] := by cases inQ <;> rfl

theorem splitAux_comma (cur rest) :
    splitCsvLineAux false cur (',' :: rest) = cur :: splitCsvLineAux false [] rest := rfl

theorem splitAux_quote_false (cur rest) :
    splitCsvLineAux false cur ('"' :: rest) = splitCsvLineAux true cur rest := rfl

theorem splitAux_other (cur rest) (c : Char) (h1 : c ≠ '"') (h2 : c ≠ ',') :
    splitCsvLineAux false cur (c :: rest) = splitCsvLineAux false (cur ++ [c]) rest := by
  rw [splitCsvLineAux.eq_def]
  split <;> simp_all

theorem headerAux_nil (q : Bool) (cur : List Char) :
    parseCsvHeaderAux q cur [] = if cur.isEmpty then [] else [jsTrimList cur] := by
  cases q <;> rfl

theorem headerAux_comma (cur rest) :
    parseCsvHeaderAux false cur (',' :: rest) =
      jsTrimList cur :: parseCsvHeaderAux false [] rest := rfl

theorem headerAux_other (cur rest) (c : Char) (h1 : c ≠ '"') (h2 : c ≠ ',') :
    parseCsvHeaderAux false cur (c :: rest) = parseCsvHeaderAux false (cur ++ [c]) rest := by
  rw [parseCsvHeaderAux.eq_def]
  split <;> simp_all

theorem splitAux_ne_nil (inQ : Bool) (cur : List Char) (cs : List Char) :
    splitCsvLineAux inQ cur cs ≠ [] := by
  induction inQ, cur, cs using splitCsvLineAux.induct with
  | case1 cur rest ih => simpa using ih
  | case2 inQ cur rest h ih => simp_all [splitCsvLineAux]
  | case3 cur rest ih => simp [splitCsvLineAux]
  | case4 inQ cur c rest h1 h2 ih => simp_all [splitCsvLineAux]
  | case5 cur => simp [splitCsvLineAux]

theorem mem_of_mem_jsTrimList {a : Char} {l : List Char} (h : a ∈ jsTrimList l) :
    a ∈ l := by
  unfold jsTrimList at h
  rw [List.mem_reverse] at h
  have h2 := List.dropWhile_subset (l := (l.dropWhile isJsSpace).reverse) isJsSpace h
  rw [List.mem_reverse] at h2
  exact List.dropWhile_subset isJsSpace h2

theorem trimDropL_cons (f : List Char) (l : List (List Char)) (h : l ≠ []) :
    trimDropLastEmptyL (f :: l) = jsTrimList f :: trimDropLastEmptyL l := by
  cases l with
  | nil => exact absurd rfl h
  | cons g gs => rfl

theorem headerAux_eq_trimDrop (cs : List Char) : ∀ cur : List Char,
    (∀ a ∈ cs, a ≠ '"') →
    parseCsvHeaderAux false cur cs = trimDropLastEmptyL (splitCsvLineAux false cur cs) := by
  induction cs with
  | nil =>
    intro cur _
    rw [headerAux_nil, splitAux_nil]
    cases cur <;> simp [trimDropLastEmptyL]
  | cons c rest ih =>
    intro cur h
    have hq : c ≠ '"' := h c (List.mem_cons_self c rest)
    have hrest : ∀ a ∈ rest, a ≠ '"' := fun a ha => h a (List.mem_cons_of_mem c ha)
    by_cases hc : c = ','
    · subst hc
      rw [headerAux_comma, splitAux_comma, trimDropL_cons _ _ (splitAux_ne_nil _ _ _),
        ih [] hrest]
    · rw [headerAux_other _ _ _ hq hc, splitAux_other _ _ _ hq hc, ih _ hrest]

theorem splitAux_fields_noquote (cs : List Char) : ∀ cur : List Char,
    (∀ a ∈ cs, a ≠ '"') → (∀ a ∈ cur, a ≠ '"') →
    ∀ f ∈ splitCsvLineAux false cur cs, ∀ a ∈ f, a ≠ '"' := by
  induction cs with
  | nil =>
    intro cur _ hcur f hf
    rw [splitAux_nil] at hf
    rcases List.mem_singleton.1 hf with rfl
    exact hcur
  | cons c rest ih =>
    intro cur h hcur f hf
    have hq : c ≠ '"' := h c (List.mem_cons_self c rest)
    have hrest : ∀ a ∈ rest, a ≠ '"' := fun a ha => h a (List.mem_cons_of_mem c ha)
    by_cases hc : c = ','
    · subst hc
      rw [splitAux_comma] at hf
      rcases List.mem_cons.1 hf with rfl | hf2
      · exact hcur
      · exact ih [] hrest (by simp) f hf2
    · rw [splitAux_other _ _ _ hq hc] at hf
      refine ih (cur ++ [c]) hrest ?_ f hf
      intro a ha
      rcases List.mem_append.1 ha with h1 | h1
      · exact hcur a h1
      · rcases List.mem_singleton.1 h1 with rfl
        exact hq

theorem stripQuotesList_id (l : List Char) (h : '"' ∉ l) : stripQuotesList l = l := by
  rw [stripQuotesList.eq_def]
  split <;> simp_all

theorem trimDropL_fields {L : List (List Char)} (h : ∀ f ∈ L, '"' ∉ f) :
    ∀ g ∈ trimDropLastEmptyL L, '"' ∉ g := by
  induction L with
  | nil => simp [trimDropLastEmptyL]
  | cons f fs ih =>
    cases fs with
    | nil =>
      intro g hg
      rw [trimDropLastEmptyL] at hg
      split at hg
      · simp at hg
      · rcases List.mem_singleton.1 hg with rfl
        intro hq
        exact h f (List.mem_singleton.2 rfl) (mem_of_mem_jsTrimList hq)
    | cons f2 fs2 =>
      intro g hg
      rw [trimDropL_cons _ _ (by simp)] at hg
      rcases List.mem_cons.1 hg with rfl | hg2
      · intro hq
        exact h f (List.mem_cons_self _ _) (mem_of_mem_jsTrimList hq)
      · exact ih (fun x hx => h x (List.mem_cons_of_mem f hx)) g hg2

theorem trimDrop_mk (L : List (List Char)) :
    trimDropLastEmpty (L.map String.mk) = (trimDropLastEmptyL L).map String.mk := by
  induction L with
  | nil => rfl
  | cons f fs ih =>
    cases fs with
    | nil =>
      rw [List.map_singleton, trimDropLastEmpty, trimDropLastEmptyL]
      by_cases hf : f = []
      · subst hf; rfl
      · rw [if_neg (fun hmk => hf (congrArg String.data hmk)), if_neg hf]
        rfl
    | cons f2 fs2 =>
      simp only [List.map_cons] at ih ⊢
      rw [trimDropLastEmpty.eq_3, trimDropLastEmptyL.eq_3, List.map_cons, ih]
      · rfl
      · simp
      · simp

theorem parseCsvHeader_vs_splitCsvLine (line : String)
    (h : ∀ a ∈ line.data, a ≠ '"') :
    parseCsvHeader line = trimDropLastEmpty (splitCsvLine line) := by
  unfold parseCsvHeader splitCsvLine
  rw [headerAux_eq_trimDrop _ _ h, trimDrop_mk]
  have hfields : ∀ f ∈ splitCsvLineAux false [] line.data, '"' ∉ f := by
    intro f hf hq
    exact splitAux_fields_noquote line.data [] h (by simp) f hf '"' hq rfl
  have hid : ∀ g ∈ trimDropLastEmptyL (splitCsvLineAux false [] line.data),
      stripQuotesList g = g := by
    intro g hg
    exact stripQuotesList_id g (trimDropL_fields hfields g hg)
  rw [List.map_congr_left hid, List.map_id']

theorem lookup_map_ne {α : Type} (rest : List (String × α)) (k : String) (v : α)
    (k' : String) (h : k' ≠ k) :
    List.lookup k' (rest.map (fun kv => if kv.1 == k then (k, v) else kv)) =
      List.lookup k' rest := by
  induction rest with
  | nil => rfl
  | cons kv r ih =>
    rw [List.map_cons]
    by_cases hk : kv.1 = k
    · rw [if_pos (by simpa using hk), List.lookup_cons, List.lookup_cons,
        show (k' == k) = false by simpa using h,
        show (k' == kv.1) = false by simp [hk]; simpa using h]
      exact ih
    · rw [if_neg (by simpa using hk), List.lookup_cons, List.lookup_cons]
      cases hbeq : k' == kv.1 with
      | true => rfl
      | false => exact ih

theorem lookup_map_self {α : Type} (rest : List (String × α)) (k : String) (v : α)
    (h : rest.any (fun kv => kv.1 == k) = true) :
    List.lookup k (rest.map (fun kv => if kv.1 == k then (k, v) else kv)) = some v := by
  induction rest with
  | nil => simp at h
  | cons kv r ih =>
    rw [List.any_cons] at h
    rw [List.map_cons]
    by_cases hk : kv.1 = k
    · rw [if_pos (by simpa using hk), List.lookup_cons, show (k == k) = true by simp]
    · rw [if_neg (by simpa using hk), List.lookup_cons,
        show (k == kv.1) = false by simp [Ne.symm hk]]
      refine ih ?_
      rcases Bool.or_eq_true_iff.1 h with h1 | h1
      · exact absurd (by simpa using h1) hk
      · exact h1

theorem objSet_lookup {α : Type} (row : List (String × α)) (k : String) (v : α)
    (k' : String) :
    List.lookup k' (objSet row k v) = if k' = k then some v else List.lookup k' row := by
  unfold objSet
  split
  · rename_i hany
    by_cases hk' : k' = k
    · subst hk'
      rw [if_pos rfl]
      exact lookup_map_self row k' v hany
    · rw [if_neg hk']
      exact lookup_map_ne row k v k' hk'
  · rename_i hany
    rw [List.lookup_append]
    by_cases hk' : k' = k
    · subst hk'
      have hnone : List.lookup k' row = none := by
        rw [List.lookup_eq_none_iff]
        intro p hp
        have hne : ¬p.1 = k' := by
          intro he
          exact hany (List.any_eq_true.2 ⟨p, hp, by simp [he]⟩)
        simpa [bne_iff_ne] using Ne.symm hne
      rw [if_pos rfl, hnone]
      simp [List.lookup_cons]
    · rw [if_neg hk']
      cases hl : List.lookup k' row with
      | some b => rfl
      | none =>
        simp [List.lookup_cons, show (k' == k) = false by simpa using hk']

theorem objSet_keys {α : Type} (row : List (String × α)) (k : String) (v : α) :
    (objSet row k v).map Prod.fst =
      if row.any (fun kv => kv.1 == k) then row.map Prod.fst
      else row.map Prod.fst ++ [k] := by
  unfold objSet
  split
  · rename_i hany
    rw [List.map_map]
    refine List.map_congr_left ?_
    intro kv _
    by_cases hk : kv.1 = k
    · simp [hk]
    · simp [hk]
  · rename_i hany
    rw [List.map_append]
    rfl

theorem buildRowRawAux_lookup (parts : List String) (cs : List String) :
    ∀ (row : List (String × String)) (i : Nat) (k : String),
    List.lookup k (buildRowRawAux parts row i cs) =
      (match lastIdxOf k cs with
       | some j => some (parts.getD (i + j) "")
       | none => List.lookup k row) := by
  induction cs with
  | nil => intro row i k; rfl
  | cons c cs ih =>
    intro row i k
    rw [show buildRowRawAux parts row i (c :: cs) =
        buildRowRawAux parts (objSet row c (parts.getD i "")) (i + 1) cs from rfl]
    rw [ih]
    cases hlast : lastIdxOf k cs with
    | some j =>
      simp only [lastIdxOf, hlast]
      have : i + 1 + j = i + (j + 1) := by omega
      rw [this]
    | none =>
      simp only [lastIdxOf, hlast]
      by_cases hc : c = k
      · rw [if_pos hc, objSet_lookup, if_pos hc.symm]
        simp
      · rw [if_neg hc, objSet_lookup, if_neg (fun h => hc h.symm)]

theorem buildRowRaw_lookup (cols parts : List String) (k : String) :
    List.lookup k (buildRowRaw cols parts) =
      (lastIdxOf k cols).map (fun j => parts.getD j "") := by
  unfold buildRowRaw
  rw [buildRowRawAux_lookup]
  cases hlast : lastIdxOf k cols with
  | some j => simp
  | none => simp

theorem buildRowRawAux_keys (parts : List String) (cs : List String) :
    ∀ (row : List (String × String)) (i : Nat),
    (buildRowRawAux parts row i cs).map Prod.fst = addCols (row.map Prod.fst) cs := by
  induction cs with
  | nil => intro row i; rfl
  | cons c cs ih =>
    intro row i
    rw [show buildRowRawAux parts row i (c :: cs) =
        buildRowRawAux parts (objSet row c (parts.getD i "")) (i + 1) cs from rfl]
    rw [ih, objSet_keys,
      show addCols (row.map Prod.fst) (c :: cs) =
        addCols (if c ∈ row.map Prod.fst then row.map Prod.fst
                 else row.map Prod.fst ++ [c]) cs from rfl]
    have hmem : (row.any fun kv => kv.1 == c) = true ↔ c ∈ row.map Prod.fst := by
      rw [List.any_eq_true]
      constructor
      · rintro ⟨kv, hkv, hbeq⟩
        exact List.mem_map.2 ⟨kv, hkv, by simpa using hbeq⟩
      · intro h
        rcases List.mem_map.1 h with ⟨kv, hkv, hfst⟩
        exact ⟨kv, hkv, by simp [hfst]⟩
    by_cases hc : c ∈ row.map Prod.fst
    · rw [if_pos (hmem.2 hc), if_pos hc]
    · rw [if_neg (fun h => hc (hmem.1 h)), if_neg hc]

theorem lookup_map_value {α β : Type} (f : α → β) (l : List (String × α)) (k : String) :
    List.lookup k (l.map (fun kv => (kv.1, f kv.2))) = (List.lookup k l).map f := by
  induction l with
  | nil => rfl
  | cons kv rest ih =>
    rw [List.map_cons, List.lookup_cons, List.lookup_cons]
    cases hbeq : k == kv.1 with
    | true => rfl
    | false => exact ih

theorem mem_addCols (cols : List String) : ∀ (acc : List String) (c : String),
    c ∈ addCols acc cols ↔ c ∈ acc ∨ c ∈ cols := by
  induction cols with
  | nil => simp [addCols]
  | cons d ds ih =>
    intro acc c
    rw [show addCols acc (d :: ds) =
        addCols (if d ∈ acc then acc else acc ++ [d]) ds from rfl, ih]
    by_cases hd : d ∈ acc
    · rw [if_pos hd]
      constructor
      · rintro (h | h)
        · exact Or.inl h
        · exact Or.inr (List.mem_cons_of_mem d h)
      · rintro (h | h)
        · exact Or.inl h
        · rcases List.mem_cons.1 h with rfl | h2
          · exact Or.inl hd
          · exact Or.inr h2
    · rw [if_neg hd]
      constructor
      · rintro (h | h)
        · rcases List.mem_append.1 h with h1 | h1
          · exact Or.inl h1
          · rcases List.mem_singleton.1 h1 with rfl
            exact Or.inr (List.mem_cons_self _ _)
        · exact Or.inr (List.mem_cons_of_mem d h)
      · rintro (h | h)
        · exact Or.inl (List.mem_append_left _ h)
        · rcases List.mem_cons.1 h with rfl | h2
          · exact Or.inl (List.mem_append_right _ (List.mem_singleton.2 rfl))
          · exact Or.inr h2

theorem addCols_nodup (cols : List String) : ∀ acc : List String,
    acc.Nodup → (addCols acc cols).Nodup := by
  induction cols with
  | nil => exact fun acc h => h
  | cons d ds ih =>
    intro acc h
    rw [show addCols acc (d :: ds) =
        addCols (if d ∈ acc then acc else acc ++ [d]) ds from rfl]
    by_cases hd : d ∈ acc
    · rw [if_pos hd]; exact ih acc h
    · rw [if_neg hd]
      refine ih _ ?_
      simp [List.nodup_append, h, hd]

theorem mergeHeaders_foldl_mem (tables : List CsvTable) : ∀ (acc : List String) (c : String),
    c ∈ tables.foldl (fun a t => addCols a t.columns) acc ↔
      c ∈ acc ∨ ∃ t ∈ tables, c ∈ t.columns := by
  induction tables with
  | nil => simp
  | cons t ts ih =>
    intro acc c
    rw [List.foldl_cons, ih, mem_addCols]
    constructor
    · rintro ((h | h) | h)
      · exact Or.inl h
      · exact Or.inr ⟨t, List.mem_cons_self _ _, h⟩
      · rcases h with ⟨u, hu, hc⟩
        exact Or.inr ⟨u, List.mem_cons_of_mem t hu, hc⟩
    · rintro (h | ⟨u, hu, hc⟩)
      · exact Or.inl (Or.inl h)
      · rcases List.mem_cons.1 hu with rfl | h2
        · exact Or.inl (Or.inr hc)
        · exact Or.inr ⟨u, h2, hc⟩

theorem mergeHeaders_foldl_nodup (tables : List CsvTable) : ∀ acc : List String,
    acc.Nodup → (tables.foldl (fun a t => addCols a t.columns) acc).Nodup := by
  induction tables with
  | nil => exact fun acc h => h
  | cons t ts ih =>
    intro acc h
    rw [List.foldl_cons]
    exact ih _ (addCols_nodup _ _ h)

theorem selectFolders_error_iff (entries : List DirEntry) (kw : String) :
    selectFolders entries kw = .error .noMatch ↔
      ∀ e ∈ entries, ¬(e.isDir = true ∧
        (jsTrim kw = "" ∨ jsStartsWith e.name (jsTrim kw) = true)) := by
  simp only [selectFolders, listImmediateSubdirs]
  by_cases hk : jsTrim kw = ""
  · rw [if_pos hk]
    split
    · rename_i hnil
      simp only [true_iff]
      rw [List.map_eq_nil_iff, List.filter_eq_nil_iff] at hnil
      intro e he hand
      exact hnil e he (by simpa using hand.1)
    · rename_i hnil
      refine iff_of_false (by simp) ?_
      intro hall
      rw [List.map_eq_nil_iff, List.filter_eq_nil_iff] at hnil
      push_neg at hnil
      rcases hnil with ⟨e, he, hdir⟩
      exact hall e he ⟨by simpa using hdir, Or.inl hk⟩
  · rw [if_neg hk]
    split
    · rename_i hnil
      simp only [true_iff]
      rw [List.filter_eq_nil_iff] at hnil
      intro e he hand
      rcases hand.2 with hcon | hstart
      · exact hk hcon
      · exact hnil e.name (List.mem_map.2 ⟨e, List.mem_filter.2 ⟨he, by simpa using hand.1⟩, rfl⟩)
          (by simpa using hstart)
    · rename_i hnil
      refine iff_of_false (by simp) ?_
      intro hall
      rw [List.filter_eq_nil_iff] at hnil
      push_neg at hnil
      rcases hnil with ⟨n, hn, hstart⟩
      rcases List.mem_map.1 hn with ⟨e, hef, rfl⟩
      rcases List.mem_filter.1 hef with ⟨he, hdir⟩
      exact hall e he ⟨by simpa using hdir, Or.inr (by simpa using hstart)⟩

theorem selectFolders_ok_mem (entries : List DirEntry) (kw : String)
    (sel : List String) (h : selectFolders entries kw = .ok sel) (n : String) :
    n ∈ sel ↔ ∃ e ∈ entries, e.isDir = true ∧ e.name = n ∧
      (jsTrim kw = "" ∨ jsStartsWith n (jsTrim kw) = true) := by
  simp only [selectFolders, listImmediateSubdirs] at h
  by_cases hk : jsTrim kw = ""
  · rw [if_pos hk] at h
    split at h
    · cases h
    · injection h with h
      subst h
      constructor
      · intro hn
        rcases List.mem_map.1 hn with ⟨e, hef, rfl⟩
        rcases List.mem_filter.1 hef with ⟨he, hdir⟩
        exact ⟨e, he, by simpa using hdir, rfl, Or.inl hk⟩
      · rintro ⟨e, he, hdir, rfl, _⟩
        exact List.mem_map.2 ⟨e, List.mem_filter.2 ⟨he, by simpa using hdir⟩, rfl⟩
  · rw [if_neg hk] at h
    split at h
    · cases h
    · injection h with h
      subst h
      constructor
      · intro hn
        rcases List.mem_filter.1 hn with ⟨hmem, hstart⟩
        rcases List.mem_map.1 hmem with ⟨e, hef, rfl⟩
        rcases List.mem_filter.1 hef with ⟨he, hdir⟩
        exact ⟨e, he, by simpa using hdir, rfl, Or.inr (by simpa using hstart)⟩
      · rintro ⟨e, he, hdir, rfl, hor⟩
        rcases hor with hcon | hstart
        · exact absurd hcon hk
        · exact List.mem_filter.2
            ⟨List.mem_map.2 ⟨e, List.mem_filter.2 ⟨he, by simpa using hdir⟩, rfl⟩,
             by simpa using hstart⟩

/-- C1: a raw field is classified numeric iff it is non-empty, `Number`
parses it to a finite value, and the canonical string form of that value
equals the trimmed raw text exactly; `"007"` and `""` stay strings, `"42"`
becomes numeric 42. -/
theorem classifyCell_numeric_iff_roundTrip :
    (∀ raw : String, (classifyCell raw).isNum = true ↔
      raw ≠ "" ∧ ∃ n : ℚ, jsNumber raw = some n ∧ jsTrim raw = jsNumToString n) ∧
    classifyCell "007" = CsvCell.str "007" ∧
    classifyCell "" = CsvCell.str "" ∧
    classifyCell "42" = CsvCell.num 42 := by
  refine ⟨fun raw => ?_, by with_unfolding_all decide, by with_unfolding_all decide,
    by with_unfolding_all decide⟩
  cases h : jsNumber raw with
  | none => simp [classifyCell, h, CsvCell.isNum]
  | some n =>
    simp only [classifyCell, h]
    by_cases hc : raw ≠ "" ∧ jsTrim raw = jsNumToString n
    · rw [if_pos hc]
      exact ⟨fun _ => ⟨hc.1, n, rfl, hc.2⟩, fun _ => rfl⟩
    · rw [if_neg hc]
      constructor
      · intro hfalse
        exact absurd hfalse (by simp [CsvCell.isNum])
      · rintro ⟨hne, m, hm, ht⟩
        cases Option.some.inj hm
        exact absurd ⟨hne, ht⟩ hc

/-- C2: `splitCsvLine` splits on commas only outside quotes and collapses a
doubled quote to a literal one: `a,"b,c",d` gives the three fields
`a` / `b,c` / `d`, and `"he said ""hi"""` gives `he said "hi"`. -/
theorem splitCsvLine_quoted_fields :
    splitCsvLine "a,\"b,c\",d" = ["a", "b,c", "d"] ∧
    splitCsvLine "\"he said \"\"hi\"\"\"" = ["he said \"hi\""] :=
  ⟨by decide, by decide⟩

/-- C3: the merged headers are the deduplicated first-seen-order union of
all tables' columns: membership is exactly membership in some table, the
result has no duplicates, `[x,y]` merged with `[y,z]` gives `[x,y,z]`, and
rows of the first file have no key `z`. -/
theorem mergeHeaders_union_firstSeen :
    (∀ (tables : List CsvTable) (c : String),
      c ∈ mergeHeaders tables ↔ ∃ t ∈ tables, c ∈ t.columns) ∧
    (∀ tables : List CsvTable, (mergeHeaders tables).Nodup) ∧
    mergeHeaders [parseCsvText "x,y\n1,2", parseCsvText "y,z\n3,4"] = ["x", "y", "z"] ∧
    (parseCsvText "x,y\n1,2").rows.all (fun row => (List.lookup "z" row).isNone) = true := by
  refine ⟨fun tables c => ?_, fun tables => ?_, by with_unfolding_all decide,
    by with_unfolding_all decide⟩
  · rw [show mergeHeaders tables =
        tables.foldl (fun a t => addCols a t.columns) [] from rfl,
      mergeHeaders_foldl_mem]
    simp
  · exact mergeHeaders_foldl_nodup tables [] List.nodup_nil

/-- C4 (counterexample): in `a,b,c` with the single data row `1`, the
columns `b` and `c` beyond the row's last field are present as keys (they
map to the empty string), not absent. -/
theorem parseCsvText_shortRow_key_present :
    List.lookup "b" ((parseCsvText "a,b,c\n1").rows.headD []) = some (CsvCell.str "") ∧
    ((parseCsvText "a,b,c\n1").rows.headD []).map Prod.fst = ["a", "b", "c"] :=
  ⟨by with_unfolding_all decide, by with_unfolding_all decide⟩

/-- C4 (amended): a column whose (last) index lies beyond the row's field
count is present in the parsed row as a key mapping to the empty-string
cell. -/
theorem parseRow_shortRow_maps_empty (cols : List String) (line : String)
    (k : String) (j : Nat) (hj : lastIdxOf k cols = some j)
    (hshort : (splitCsvLine line).length ≤ j) :
    List.lookup k (parseRow cols line) = some (CsvCell.str "") := by
  unfold parseRow
  rw [lookup_map_value, buildRowRaw_lookup, hj]
  have hnone : (splitCsvLine line).getD j "" = "" := by
    rw [List.getD_eq_getElem?_getD, List.getElem?_eq_none hshort]
    rfl
  show some (classifyCell ((splitCsvLine line).getD j "")) = some (CsvCell.str "")
  rw [hnone]
  exact congrArg some (by with_unfolding_all decide)

/-- C4 witness: in columns `a,b` with data row `1`, key `b` maps to the
empty-string cell. -/
theorem parseRow_shortRow_maps_empty_witness :
    List.lookup "b" (parseRow ["a", "b"] "1") = some (CsvCell.str "") :=
  parseRow_shortRow_maps_empty ["a", "b"] "1" "b" 1 (by decide) (by decide)

/-- C5: the parsed row count is the non-empty-line count minus the header
line, and a text with no non-empty lines parses to the empty table. -/
theorem parseCsvText_rowCount (text : String) :
    (parseCsvText text).rows.length = (normalizeLines text).length - 1 ∧
    (normalizeLines text = [] → parseCsvText text = ⟨[], []⟩) := by
  unfold parseCsvText
  cases h : normalizeLines text with
  | nil => exact ⟨rfl, fun _ => rfl⟩
  | cons l0 rest =>
    refine ⟨?_, fun hcon => by simp at hcon⟩
    simp

/-- C5 witness: a three-data-line text has 3 rows, and a whitespace-only
text gives the empty table. -/
theorem parseCsvText_rowCount_witness :
    (parseCsvText "a,b\n1,2\n\n2,3\n3,4").rows.length =
      (normalizeLines "a,b\n1,2\n\n2,3\n3,4").length - 1 ∧
    parseCsvText " \n " = ⟨[], []⟩ :=
  ⟨(parseCsvText_rowCount "a,b\n1,2\n\n2,3\n3,4").1,
   (parseCsvText_rowCount " \n ").2 (by decide)⟩

/-- C6: folder selection fails with the no-match error exactly when no
entry is a directory whose name starts with the trimmed keyword (every
directory matching when the trimmed keyword is empty), and on success the
selected names are exactly those subdirectory names. -/
theorem selectFolders_matches_iff (entries : List DirEntry) (kw : String) :
    (selectFolders entries kw = .error .noMatch ↔
      ∀ e ∈ entries, ¬(e.isDir = true ∧
        (jsTrim kw = "" ∨ jsStartsWith e.name (jsTrim kw) = true))) ∧
    (∀ sel, selectFolders entries kw = .ok sel → ∀ n : String,
      (n ∈ sel ↔ ∃ e ∈ entries, e.isDir = true ∧ e.name = n ∧
        (jsTrim kw = "" ∨ jsStartsWith n (jsTrim kw) = true))) :=
  ⟨selectFolders_error_iff entries kw,
   fun sel h n => selectFolders_ok_mem entries kw sel h n⟩

/-- C6 witness: with keyword `" proj "`, `project1` is selected among the
example entries because it is a directory whose name starts with `proj`. -/
theorem selectFolders_matches_iff_witness :
    "project1" ∈ ["project1", "project2"] ↔
      ∃ e ∈ [DirEntry.mk "project1" true, DirEntry.mk "project2" true,
             DirEntry.mk "other" true, DirEntry.mk "p.csv" false],
        e.isDir = true ∧ e.name = "project1" ∧
        (jsTrim " proj " = "" ∨ jsStartsWith "project1" (jsTrim " proj ") = true) :=
  (selectFolders_matches_iff [DirEntry.mk "project1" true, DirEntry.mk "project2" true,
      DirEntry.mk "other" true, DirEntry.mk "p.csv" false] " proj ").2
    ["project1", "project2"] (by rfl) "project1"

/-- C7 (counterexample): on the line `a,` the endpoint's header parser
returns `[a]` while CsvLineSplitter returns `[a, ""]`, so the two parsers
are not the same. -/
theorem parseCsvHeader_ne_splitCsvLine :
    parseCsvHeader "a," = ["a"] ∧ splitCsvLine "a," = ["a", ""] ∧
    parseCsvHeader "a," ≠ splitCsvLine "a," :=
  ⟨by decide, by decide, by decide⟩

/-- C7 (amended): on a line with no double-quote character, the endpoint's
header parser equals CsvLineSplitter followed by trimming every field and
dropping the final field when it is empty; with quotes present the two
parsers can disagree. -/
theorem parseCsvHeader_noQuote_eq (line : String)
    (h : ∀ a ∈ line.data, a ≠ '"') :
    parseCsvHeader line = trimDropLastEmpty (splitCsvLine line) :=
  parseCsvHeader_vs_splitCsvLine line h

/-- C7 witness: the relationship evaluated on the quote-free line `x, y,z`. -/
theorem parseCsvHeader_noQuote_eq_witness :
    parseCsvHeader "x, y,z" = trimDropLastEmpty (splitCsvLine "x, y,z") :=
  parseCsvHeader_noQuote_eq "x, y,z" (by decide)

/-- C8: for the flow name `../dataEvil` the resolved path
`/app/dataEvil.csv` lies outside the data directory `/app/data`, yet the
handler's `startsWith` check accepts it and the file is read. -/
theorem handleApiColumns_sandbox_bypass :
    handleApiColumnsPath "/app/data" "../dataEvil" = some "/app/dataEvil.csv" ∧
    insideDir "/app/data" "/app/dataEvil.csv" = false :=
  ⟨by decide, by decide⟩

/-- C9: a payload that parsed to a non-array JSON value is rejected with
the must-be-array error and the stored document is unchanged. -/
theorem replaceTasks_rejects_nonArray (stored : Option Json) (j : Json)
    (h : j.isArray = false) :
    replaceTasks stored (some j) = (TasksReply.mustBeArray, stored) := by
  cases j <;> simp_all [replaceTasks, Json.isArray]

/-- C9 witness: replacing with the JSON string `"not an array"` leaves the
stored array untouched and reports the must-be-array error. -/
theorem replaceTasks_rejects_nonArray_witness :
    replaceTasks (some (Json.array [])) (some (Json.string "not an array")) =
      (TasksReply.mustBeArray, some (Json.array [])) :=
  replaceTasks_rejects_nonArray (some (Json.array [])) (Json.string "not an array") rfl

/-- C10: a duplicated header name is preserved in the column list, each row
keeps a single key per name whose value comes from the last duplicate's
position, and row keys are therefore fewer than the columns; in general a
row's lookup returns the field at the last index of the name and row keys
never repeat. -/
theorem parseCsvText_duplicate_columns :
    parseCsvText "a,b,a\n1,2,3" =
      ⟨["a", "b", "a"], [[("a", CsvCell.num 3), ("b", CsvCell.num 2)]]⟩ ∧
    (∀ (cols : List String) (line : String) (k : String),
      List.lookup k (parseRow cols line) =
        (lastIdxOf k cols).map (fun j => classifyCell ((splitCsvLine line).getD j ""))) ∧
    (∀ cols parts : List String, ((buildRowRaw cols parts).map Prod.fst).Nodup) := by
  refine ⟨by with_unfolding_all decide, fun cols line k => ?_, fun cols parts => ?_⟩
  · unfold parseRow
    rw [lookup_map_value, buildRowRaw_lookup, Option.map_map]
    rfl
  · rw [show buildRowRaw cols parts = buildRowRawAux parts [] 0 cols from rfl,
      buildRowRawAux_keys]
    exact addCols_nodup cols [] List.nodup_nil
